import Mathlib

/-! Verification of the SMG CSV transformation engine (transformSMGCSV and its
helper functions), modelled faithfully from the JavaScript source.
Modelling conventions: a JavaScript string is a list of characters; a
JavaScript number is an exact rational (IEEE-754 rounding and the infinities
are outside the scope of the verified claims); reading a missing array cell
(undefined) is Option.none. -/

/-- JavaScript strings are modelled as lists of characters. -/
abbrev Str := List Char

/-- Character-list view of a Lean string literal. -/
def str (s : String) : Str := s.data

/-- Model of the leading-whitespace removal done by String.prototype.trim. -/
def jsTrimLeft (s : Str) : Str := s.dropWhile (fun c => c.isWhitespace)

/-- Model of String.prototype.trim: drop whitespace at both ends. -/
def jsTrim (s : Str) : Str := ((jsTrimLeft ((jsTrimLeft s).reverse)).reverse)

/-- Model of String.prototype.split with a one-character separator:
"a,b".split is [a, b], "".split is [""], ",".split is ["", ""]. -/
def jsSplit (sep : Char) : Str → List Str
  | [] => [[]]
  | c :: rest =>
    if c = sep then [] :: jsSplit sep rest
    else
      match jsSplit sep rest with
      | [] => [[c]]
      | h :: t => (c :: h) :: t

/-- Model of String.prototype.padStart(2, the zero character). -/
def padStart2 (s : Str) : Str :=
  if 2 ≤ s.length then s else List.replicate (2 - s.length) '0' ++ s

/-- Does the second list occur as a prefix of the first (helper for the
String.prototype.includes model). -/
def strStartsWith : Str → Str → Bool
  | _, [] => true
  | [], _ :: _ => false
  | c :: cs, d :: ds => c = d && strStartsWith cs ds

/-- Model of hay.includes(needle) for JavaScript strings. -/
def jsIncludes : Str → Str → Bool
  | [], needle => strStartsWith [] needle
  | c :: rest, needle => strStartsWith (c :: rest) needle || jsIncludes rest needle

/-- Numeric value of a decimal digit character. -/
def digitVal (c : Char) : ℕ := c.toNat - '0'.toNat

/-- Decimal value of a digit run. -/
def digitsToNat (ds : Str) : ℕ := ds.foldl (fun acc c => 10 * acc + digitVal c) 0

/-- Longest leading run of decimal digits, paired with the rest. -/
def spanDigits (s : Str) : Str × Str := (s.takeWhile Char.isDigit, s.dropWhile Char.isDigit)

/-- Model of the JavaScript parseFloat builtin over exact rationals: skip
leading whitespace, read an optional sign, a digit run with an optional
fractional part, and an optional exponent part, taking the longest valid
literal prefix; none models the NaN result for inputs with no numeric prefix.
(The Infinity literal is not modelled; no verified claim mentions it.) -/
def jsParseFloat (s : Str) : Option ℚ :=
  let s₁ := jsTrimLeft s
  let signAndRest : ℚ × Str :=
    match s₁ with
    | '+' :: r => (1, r)
    | '-' :: r => (-1, r)
    | r => (1, r)
  let sign := signAndRest.1
  let s₂ := signAndRest.2
  let intPart := spanDigits s₂
  let intDs := intPart.1
  let s₃ := intPart.2
  let fracPart : Str × Str :=
    match s₃ with
    | '.' :: r => spanDigits r
    | _ => ([], s₃)
  let fracDs := fracPart.1
  let s₄ := fracPart.2
  if intDs = [] ∧ fracDs = [] then none
  else
    let mantissa : ℚ :=
      (digitsToNat intDs : ℚ) + (digitsToNat fracDs : ℚ) / (10 : ℚ) ^ fracDs.length
    let exp : ℤ :=
      match s₄ with
      | c :: r =>
        if c = 'e' ∨ c = 'E' then
          let esignAndRest : ℤ × Str :=
            match r with
            | '+' :: rr => (1, rr)
            | '-' :: rr => (-1, rr)
            | rr => (1, rr)
          let eds := (spanDigits esignAndRest.2).1
          if eds = [] then 0 else esignAndRest.1 * (digitsToNat eds : ℤ)
        else 0
      | [] => 0
    some (sign * mantissa * (10 : ℚ) ^ exp)

/-- Model of cleanValue from the source: the two-character mask token, the
empty string, and an absent (undefined or null, both modelled by none) cell
give 0; otherwise parseFloat, with NaN also giving 0. -/
def cleanValue : Option Str → ℚ
  | none => 0
  | some v =>
    if v = ['*', '*'] ∨ v = [] then 0
    else
      match jsParseFloat v with
      | none => 0
      | some q => q

/-- The text produced when a JavaScript template interpolates undefined. -/
def undefStr : Str := str "undefined"

/-- Model of normalizeDateForStorageUTC from the source: a string containing a
slash is split on slashes into month, day, year with month and day padded; a
string containing a hyphen (and no slash) is split on hyphens into year,
month, day and rebuilt field by field; missing parts interpolate as the text
undefined, exactly as the JavaScript template would. -/
def normalizeDateForStorageUTC (dateStr : Str) : Str :=
  if '/' ∈ dateStr then
    let parts := jsSplit '/' dateStr
    let month := padStart2 (parts.getD 0 [])
    let day := padStart2 (parts.getD 1 [])
    let year := parts.getD 2 undefStr
    year ++ '-' :: month ++ '-' :: day
  else if '-' ∈ dateStr then
    let parts := jsSplit '-' dateStr
    (parts.getD 0 undefStr) ++ '-' :: (parts.getD 1 undefStr) ++ '-' :: (parts.getD 2 undefStr)
  else
    undefStr ++ '-' :: undefStr ++ '-' :: undefStr

/-- Decidable equality for Except results, used only to evaluate the model on
concrete inputs. -/
instance {ε α : Type} [DecidableEq ε] [DecidableEq α] : DecidableEq (Except ε α) :=
  fun a b =>
    match a, b with
    | .ok x, .ok y => decidable_of_iff (x = y) (by simp)
    | .error x, .error y => decidable_of_iff (x = y) (by simp)
    | .ok _, .error _ => isFalse (by simp)
    | .error _, .ok _ => isFalse (by simp)

/-- Match exactly n decimal digits at the front, returning them and the rest. -/
def matchNDigits : ℕ → Str → Option (Str × Str)
  | 0, s => some ([], s)
  | _ + 1, [] => none
  | n + 1, c :: r =>
    if c.isDigit then (matchNDigits n r).map (fun p => (c :: p.1, p.2)) else none

/-- Greedy match of one or two decimal digits followed by the given separator
character (the regex piece for a short field before a slash): two digits are
preferred, falling back to one, exactly as the backtracking engine would. -/
def matchD12Then (sep : Char) (s : Str) : Option (Str × Str) :=
  match matchNDigits 2 s with
  | some (m, c :: rest) =>
    if c = sep then some (m, rest)
    else
      match matchNDigits 1 s with
      | some (m₁, c₁ :: rest₁) => if c₁ = sep then some (m₁, rest₁) else none
      | _ => none
  | _ =>
    match matchNDigits 1 s with
    | some (m₁, c₁ :: rest₁) => if c₁ = sep then some (m₁, rest₁) else none
    | _ => none

/-- Match one date token of the shape month slash day slash four-digit year at
the front of the string, returning the matched text and the rest. -/
def matchDateToken (s : Str) : Option (Str × Str) :=
  match matchD12Then '/' s with
  | none => none
  | some (m1, r1) =>
    match matchD12Then '/' r1 with
    | none => none
    | some (m2, r2) =>
      match matchNDigits 4 r2 with
      | none => none
      | some (m3, r3) => some (m1 ++ '/' :: m2 ++ '/' :: m3, r3)

/-- Match optional whitespace, a hyphen, optional whitespace (the separator
between the two date tokens); whitespace and digits are disjoint, so maximal
munching here agrees with the backtracking engine. -/
def matchWsHyphenWs (s : Str) : Option Str :=
  match s.dropWhile (fun c => c.isWhitespace) with
  | '-' :: r => some (r.dropWhile (fun c => c.isWhitespace))
  | _ => none

/-- Try to match the whole date-range pattern at the current position,
returning the two captured date tokens. -/
def matchDatePairAt (s : Str) : Option (Str × Str) :=
  match matchDateToken s with
  | none => none
  | some (d1, r1) =>
    match matchWsHyphenWs r1 with
    | none => none
    | some r2 =>
      match matchDateToken r2 with
      | none => none
      | some (d2, _) => some (d1, d2)

/-- Model of the regex search in extractDate: try each start position left to
right and return the first successful match's two capture groups. -/
def searchDatePair : Str → Option (Str × Str)
  | [] => matchDatePairAt []
  | c :: rest =>
    match matchDatePairAt (c :: rest) with
    | some p => some p
    | none => searchDatePair rest

/-- The date information object built by extractDate, or synthesized from the
caller-supplied fallback date (which leaves dateRange absent). -/
structure DateInfo where
  startDate : Str
  endDate : Str
  dateRange : Option Str
  deriving Repr, DecidableEq, Inhabited

/-- Model of extractDate from the source: search the title line for two
month/day/year tokens separated by a hyphen and return them with a combined
display string, or none when the regex does not match. -/
def extractDate (titleLine : Str) : Option DateInfo :=
  match searchDatePair titleLine with
  | none => none
  | some (d1, d2) => some ⟨d1, d2, some (d1 ++ ' ' :: '-' :: ' ' :: d2)⟩

/-- A discovered metric: the category name, the column of its response count,
and the columns of its five score buckets. -/
structure Metric where
  name : Str
  startIndex : ℕ
  responseCountIndex : ℕ
  score5Index : ℕ
  score4Index : ℕ
  score3Index : ℕ
  score2Index : ℕ
  score1Index : ℕ
  deriving Repr, DecidableEq, Inhabited

/-- The metric object pushed by parseHeaders at column i: response count at i,
score buckets five down to one at the next five columns. -/
def mkMetric (name : Str) (i : ℕ) : Metric :=
  ⟨name, i, i, i + 1, i + 2, i + 3, i + 4, i + 5⟩

/-- Lookup in the score-index table of a metric; the engine only ever asks for
scores one through five. -/
def Metric.scoreIndex (m : Metric) : ℕ → ℕ
  | 5 => m.score5Index
  | 4 => m.score4Index
  | 3 => m.score3Index
  | 2 => m.score2Index
  | 1 => m.score1Index
  | _ => 0

/-- The scanning loop of parseHeaders over the category cells from column one
on: a non-empty first-row cell becomes the current category, and a second-row
cell that is exactly the letter n while a category is active records a metric. -/
def parseHeadersGo (subs : List Str) : List Str → ℕ → Str → List Metric
  | [], _, _ => []
  | c :: rest, i, cur =>
    let cur' := if c ≠ [] then c else cur
    let tail := parseHeadersGo subs rest (i + 1) cur'
    if cur' ≠ [] ∧ subs.getD i [] = ['n'] then mkMetric cur' i :: tail else tail

/-- Model of parseHeaders from the source: split and trim both header lines,
then scan from column one with a carried current category. A missing header
line is modelled by the empty string, the only falsy JavaScript string. -/
def parseHeaders (headerLine1 headerLine2 : Str) : List Metric :=
  if headerLine1 = [] ∨ headerLine2 = [] then []
  else
    let categories := (jsSplit ',' headerLine1).map jsTrim
    let subHeaders := (jsSplit ',' headerLine2).map jsTrim
    parseHeadersGo subHeaders (categories.drop 1) 1 []

/-- Model of parseCSVLine from the source: split on commas and trim. -/
def parseCSVLine (line : Str) : List Str := (jsSplit ',' line).map jsTrim

/-- One output record of the transformation engine. -/
structure TransformedRecord where
  store_location : Str
  date : Str
  metric_name : Str
  question : Str
  score : ℕ
  response_percent : ℚ
  response_count : ℤ
  total_responses : ℚ
  deriving Repr, DecidableEq, Inhabited

/-- Model of Math.round: round half toward positive infinity. -/
def jsRound (q : ℚ) : ℤ := ⌊q + 1 / 2⌋

/-- Decimal digit string of a natural number, built from the low digit up with
a structural fuel argument that is always sufficient (model of JavaScript
number-to-string interpolation for the non-negative integers used here). -/
def natToStrGo : ℕ → ℕ → Str → Str
  | 0, _, acc => acc
  | fuel + 1, n, acc =>
    let d := Char.ofNat ('0'.toNat + n % 10)
    if n < 10 then d :: acc
    else natToStrGo fuel (n / 10) (d :: acc)

/-- The placeholder label substituted for a blank store cell on data line i. -/
def unknownLabel (i : ℕ) : Str := str "Unknown_" ++ natToStrGo (i + 1) i []

/-- The line list of the engine: split on newlines, strip carriage returns,
trim, and drop blank lines. -/
def smgLines (csvContent : Str) : List Str :=
  ((jsSplit '\n' csvContent).map (fun l => jsTrim (l.filter (fun c => c ≠ '\r')))).filter
    (fun l => l ≠ [])

/-- The store label of data line i: cell zero, or the synthesized placeholder
when that cell is blank or absent. -/
def storeLabelOf (i : ℕ) (dataLine : Str) : Str :=
  match (parseCSVLine dataLine)[0]? with
  | none => unknownLabel i
  | some v => if v = [] then unknownLabel i else v

/-- The skip guard of the engine's data-row loop: the row is dropped when its
store label lower-cased contains the header-leakage phrase, or is empty. -/
def rowSkipped (i : ℕ) (dataLine : Str) : Bool :=
  jsIncludes ((storeLabelOf i dataLine).map Char.toLower) (str "store id")
    || (storeLabelOf i dataLine).isEmpty

/-- The record emitted for one score bucket of one metric on one data row. -/
def recordForScore (dateInfo : DateInfo) (storeLocation : Str) (values : List Str)
    (m : Metric) (responseCount : ℚ) (score : ℕ) : TransformedRecord :=
  let responsePercent := cleanValue values[m.scoreIndex score]?
  { store_location := storeLocation
    date := normalizeDateForStorageUTC dateInfo.startDate
    metric_name := m.name
    question := m.name
    score := score
    response_percent := responsePercent
    response_count := jsRound (responseCount * responsePercent)
    total_responses := responseCount }

/-- The five records emitted for one metric on one data row, scores ascending
as in the source loop. -/
def recordsForMetric (dateInfo : DateInfo) (storeLocation : Str) (values : List Str)
    (m : Metric) : List TransformedRecord :=
  let responseCount := cleanValue values[m.responseCountIndex]?
  ([1, 2, 3, 4, 5] : List ℕ).map (recordForScore dateInfo storeLocation values m responseCount)

/-- The body of the engine's loop over one data line (index and text). -/
def processDataLine (dateInfo : DateInfo) (metrics : List Metric) (i : ℕ)
    (dataLine : Str) : List TransformedRecord :=
  if jsTrim dataLine = [] then []
  else if rowSkipped i dataLine then []
  else
    metrics.flatMap
      (recordsForMetric dateInfo (storeLabelOf i dataLine) (parseCSVLine dataLine))

/-- The date information the engine ends up with: the extraction result, or a
fallback object built from a truthy caller-supplied target date. -/
def resolvedDateInfo (csv : Str) (targetDate : Option Str) : Option DateInfo :=
  match extractDate ((smgLines csv).getD 0 []) with
  | some di => some di
  | none =>
    match targetDate with
    | some t => if t ≠ [] then some ⟨t, t, none⟩ else none
    | none => none

/-- Model of transformSMGCSV from the source: the thrown format errors are the
error branch of the result, carrying the original messages. -/
def transformSMGCSV (csvContent : Str) (targetDate : Option Str) :
    Except String (List TransformedRecord) :=
  let lines := smgLines csvContent
  if lines.length < 4 then .error "Invalid SMG CSV format - not enough lines"
  else
    match resolvedDateInfo csvContent targetDate with
    | none => .error "Could not extract date from SMG CSV title line"
    | some dateInfo =>
      let metrics := parseHeaders (lines.getD 1 []) (lines.getD 2 [])
      .ok ((lines.enum.drop 3).flatMap (fun p => processDataLine dateInfo metrics p.1 p.2))

/-- The metric list the engine works with, read off the second and third
retained lines. -/
def metricsOf (csv : Str) : List Metric :=
  parseHeaders ((smgLines csv).getD 1 []) ((smgLines csv).getD 2 [])

/-- The date information of a run that did not fail (default value otherwise). -/
def theDateInfo (csv : Str) (td : Option Str) : DateInfo :=
  (resolvedDateInfo csv td).getD default

/-- The data lines (with their line indices) that survive the skip guard. -/
def retainedDataLines (csv : Str) : List (ℕ × Str) :=
  ((smgLines csv).enum.drop 3).filter (fun p => !rowSkipped p.1 p.2)

theorem dropWhile_head_false {p : Char → Bool} :
    ∀ {l c t}, List.dropWhile p l = c :: t → p c = false := by
  intro l
  induction l with
  | nil => intro c t h; simp at h
  | cons a l ih =>
    intro c t h
    rw [List.dropWhile_cons] at h
    by_cases hp : p a = true
    · rw [if_pos hp] at h; exact ih h
    · rw [if_neg hp] at h
      cases h
      exact Bool.eq_false_iff.mpr hp

theorem jsTrim_eq_nil_iff {s : Str} :
    jsTrim s = [] ↔ ∀ c ∈ s, c.isWhitespace := by
  unfold jsTrim jsTrimLeft
  rw [List.reverse_eq_nil_iff, List.dropWhile_eq_nil_iff]
  constructor
  · intro h c hc
    by_cases hin : c ∈ List.dropWhile (fun c => c.isWhitespace) s
    · have := h c (List.mem_reverse.mpr hin)
      simpa using this
    · rcases hd : List.dropWhile (fun c => c.isWhitespace) s with _ | ⟨a, t⟩
      · have := List.dropWhile_eq_nil_iff.mp hd c hc
        simpa using this
      · exfalso
        have ha : (fun c : Char => c.isWhitespace) a = false := dropWhile_head_false hd
        have : a ∈ List.dropWhile (fun c => c.isWhitespace) s := by rw [hd]; simp
        have := h a (List.mem_reverse.mpr this)
        simp only at ha
        rw [ha] at this
        exact absurd this (by simp)
  · intro h c hc
    have : c ∈ s := by
      have := List.mem_reverse.mp hc
      have hsub : List.dropWhile (fun c => c.isWhitespace) s <:+ s := List.dropWhile_suffix _
      exact hsub.subset this
    simpa using h c this

theorem jsTrim_ne_nil_of_mem_smgLines {csv : Str} {l : Str} (h : l ∈ smgLines csv) :
    jsTrim l ≠ [] := by
  unfold smgLines at h
  rw [List.mem_filter] at h
  obtain ⟨hmem, hne⟩ := h
  rw [List.mem_map] at hmem
  obtain ⟨raw, -, hraw⟩ := hmem
  intro htrim
  have hall : ∀ c ∈ l, c.isWhitespace := jsTrim_eq_nil_iff.mp htrim
  have hne' : l ≠ [] := by simpa using hne
  have : jsTrim (List.filter (fun c => decide (c ≠ '\r')) raw) = l := hraw
  unfold jsTrim jsTrimLeft at this
  rcases hd : List.dropWhile (fun c => c.isWhitespace)
      (List.dropWhile (fun c => c.isWhitespace)
        (List.filter (fun c => decide (c ≠ '\r')) raw)).reverse with _ | ⟨a, t⟩
  · rw [hd] at this
    exact hne' (this.symm.trans rfl ▸ by simp [← this, hd])
  · have ha : (fun c : Char => c.isWhitespace) a = false := dropWhile_head_false hd
    have hamem : a ∈ l := by
      rw [← this, hd, List.mem_reverse]
      simp
    have := hall a hamem
    simp only at ha
    rw [ha] at this
    exact absurd this (by simp)

theorem flatMap_skip_filter {α β : Type} (q : α → Bool) (f : α → List β) :
    ∀ l : List α, (∀ a ∈ l, q a = false → f a = []) →
      l.flatMap f = (l.filter q).flatMap f := by
  intro l
  induction l with
  | nil => intro _; rfl
  | cons a t ih =>
    intro h
    rw [List.flatMap_cons, List.filter_cons]
    by_cases hq : q a = true
    · rw [if_pos hq, List.flatMap_cons, ih (fun x hx => h x (List.mem_cons_of_mem a hx))]
    · have hqf : q a = false := Bool.eq_false_iff.mpr hq
      rw [if_neg (by simp [hqf]), h a (List.mem_cons_self a t) hqf, List.nil_append,
        ih (fun x hx => h x (List.mem_cons_of_mem a hx))]

theorem transform_ok_decomp {csv : Str} {td : Option Str} {out : List TransformedRecord}
    (h : transformSMGCSV csv td = Except.ok out) :
    out = (retainedDataLines csv).flatMap (fun p =>
      (metricsOf csv).flatMap
        (recordsForMetric (theDateInfo csv td) (storeLabelOf p.1 p.2) (parseCSVLine p.2))) := by
  simp only [transformSMGCSV] at h
  by_cases hlen : (smgLines csv).length < 4
  · rw [if_pos hlen] at h; cases h
  · rw [if_neg hlen] at h
    rcases hdi : resolvedDateInfo csv td with _ | di
    · rw [hdi] at h; cases h
    · rw [hdi] at h
      injection h with h
      have hdif : theDateInfo csv td = di := by unfold theDateInfo; rw [hdi]; rfl
      rw [hdif, ← h]
      unfold retainedDataLines
      show ((smgLines csv).enum.drop 3).flatMap
          (fun p => processDataLine di (metricsOf csv) p.1 p.2) = _
      refine (flatMap_skip_filter (fun p : ℕ × Str => !rowSkipped p.1 p.2)
        (fun p : ℕ × Str => processDataLine di (metricsOf csv) p.1 p.2) _ ?_).trans
        (List.flatMap_congr ?_)
      · intro p _ hq
        have hs : rowSkipped p.1 p.2 = true := by simpa using hq
        show processDataLine di (metricsOf csv) p.1 p.2 = []
        unfold processDataLine
        rw [hs]
        split <;> simp
      · intro p hp
        have hp2 : p.2 ∈ smgLines csv := by
          have hp' := List.mem_of_mem_drop (List.mem_filter.mp hp).1
          rcases p with ⟨i, x⟩
          have := List.mem_enum hp'
          rw [this.2]
          exact List.getElem_mem this.1
        have htr : jsTrim p.2 ≠ [] := jsTrim_ne_nil_of_mem_smgLines hp2
        have hs : rowSkipped p.1 p.2 = false := by
          simpa using (List.mem_filter.mp hp).2
        show processDataLine di (metricsOf csv) p.1 p.2 = _
        unfold processDataLine
        rw [if_neg htr, hs]
        rfl

theorem recordsForMetric_length (di : DateInfo) (loc : Str) (vs : List Str) (m : Metric) :
    (recordsForMetric di loc vs m).length = 5 := by
  unfold recordsForMetric
  simp

theorem flatMap_recordsForMetric_length (di : DateInfo) (loc : Str) (vs : List Str) :
    ∀ ms : List Metric, (ms.flatMap (recordsForMetric di loc vs)).length = ms.length * 5 := by
  intro ms
  induction ms with
  | nil => rfl
  | cons m t ih =>
    rw [List.flatMap_cons, List.length_append, recordsForMetric_length, ih]
    simp [Nat.succ_mul, Nat.add_comm]

theorem outer_flatMap_length (di : DateInfo) (ms : List Metric) :
    ∀ l : List (ℕ × Str),
      (l.flatMap (fun p => ms.flatMap
        (recordsForMetric di (storeLabelOf p.1 p.2) (parseCSVLine p.2)))).length =
        l.length * (ms.length * 5) := by
  intro l
  induction l with
  | nil => simp
  | cons p t ih =>
    rw [List.flatMap_cons, List.length_append, flatMap_recordsForMetric_length, ih]
    simp [Nat.succ_mul, Nat.add_comm]

/-- The category in effect at header column i, as the claim describes it: the
most recent non-empty (trimmed) first-row cell at a column between 1 and i. -/
def currentCategoryAt (categories : List Str) (i : ℕ) : Str :=
  (List.range' 1 i).foldl
    (fun cur j => if categories.getD j [] ≠ [] then categories.getD j [] else cur) []

/-- The header parser as the claim describes it: scan columns 1 through the
end of the (first) header row; record a metric exactly at the columns whose
trimmed second-row cell is the letter n while a category is active, naming it
by the current category, with the response count at that column and the five
score buckets five down to one at the next five columns. -/
def parseHeadersSpec (h1 h2 : Str) : List Metric :=
  let categories := (jsSplit ',' h1).map jsTrim
  let subHeaders := (jsSplit ',' h2).map jsTrim
  (List.range' 1 (categories.length - 1)).filterMap (fun i =>
    if currentCategoryAt categories i ≠ [] ∧ subHeaders.getD i [] = ['n'] then
      some ⟨currentCategoryAt categories i, i, i, i + 1, i + 2, i + 3, i + 4, i + 5⟩
    else none)

theorem currentCategoryAt_succ (cats : List Str) (i : ℕ) :
    currentCategoryAt cats (i + 1) =
      if cats.getD (i + 1) [] ≠ [] then cats.getD (i + 1) [] else currentCategoryAt cats i := by
  unfold currentCategoryAt
  rw [List.range'_1_concat, List.foldl_append]
  simp [Nat.add_comm]

theorem parseHeadersGo_spec (subs cats : List Str) :
    ∀ (n k : ℕ), n = cats.length - (k + 1) →
      parseHeadersGo subs (cats.drop (k + 1)) (k + 1) (currentCategoryAt cats k) =
        (List.range' (k + 1) n).filterMap (fun i =>
          if currentCategoryAt cats i ≠ [] ∧ subs.getD i [] = ['n'] then
            some (mkMetric (currentCategoryAt cats i) i)
          else none) := by
  intro n
  induction n with
  | zero =>
    intro k hk
    have hle : cats.length ≤ k + 1 := by omega
    rw [List.drop_eq_nil_of_le hle]
    rfl
  | succ n ih =>
    intro k hk
    have hlt : k + 1 < cats.length := by omega
    rw [List.drop_eq_getElem_cons hlt]
    have hc : cats[k + 1] = cats.getD (k + 1) [] := by
      rw [List.getD_eq_getElem?_getD, List.getElem?_eq_getElem hlt]
      rfl
    show (let cur' := if cats[k + 1] ≠ [] then cats[k + 1] else currentCategoryAt cats k
      let tail := parseHeadersGo subs (cats.drop (k + 1 + 1)) (k + 1 + 1) cur'
      if cur' ≠ [] ∧ subs.getD (k + 1) [] = ['n'] then
        mkMetric cur' (k + 1) :: tail else tail) = _
    have hcur : (if cats[k + 1] ≠ [] then cats[k + 1] else currentCategoryAt cats k) =
        currentCategoryAt cats (k + 1) := by
      rw [currentCategoryAt_succ, hc]
    rw [List.range'_succ, List.filterMap_cons]
    simp only [hcur]
    rw [ih (k + 1) (by omega)]
    by_cases hcond : currentCategoryAt cats (k + 1) ≠ [] ∧ subs.getD (k + 1) [] = ['n']
    · rw [if_pos hcond]
      rw [if_pos hcond]
    · rw [if_neg hcond]
      rw [if_neg hcond]

theorem parseHeaders_eq_spec (h1 h2 : Str) : parseHeaders h1 h2 = parseHeadersSpec h1 h2 := by
  rcases h1eq : h1 with _ | ⟨c1, t1⟩
  · rfl
  · rcases h2eq : h2 with _ | ⟨c2, t2⟩
    · show parseHeaders (c1 :: t1) [] = parseHeadersSpec (c1 :: t1) []
      unfold parseHeaders parseHeadersSpec
      rw [if_pos (Or.inr rfl)]
      rw [eq_comm, List.filterMap_eq_nil_iff]
      intro i hi
      have h1le : 1 ≤ i := (List.mem_range'_1.mp hi).1
      have : ((jsSplit ',' ([] : Str)).map jsTrim).getD i [] = [] := by
        have : (jsSplit ',' ([] : Str)).map jsTrim = [[]] := rfl
        rw [this, List.getD_eq_default]
        simpa using h1le
      rw [if_neg]
      intro hcond
      rw [this] at hcond
      exact absurd hcond.2 (by simp)
    · show parseHeaders (c1 :: t1) (c2 :: t2) = parseHeadersSpec (c1 :: t1) (c2 :: t2)
      unfold parseHeaders parseHeadersSpec
      rw [if_neg (by simp)]
      exact parseHeadersGo_spec ((jsSplit ',' (c2 :: t2)).map jsTrim)
        ((jsSplit ',' (c1 :: t1)).map jsTrim)
        (((jsSplit ',' (c1 :: t1)).map jsTrim).length - (0 + 1)) 0 rfl

theorem jsSplit_ne_nil (sep : Char) : ∀ s : Str, jsSplit sep s ≠ [] := by
  intro s
  cases s with
  | nil => simp [jsSplit]
  | cons c rest =>
    unfold jsSplit
    by_cases h : c = sep
    · rw [if_pos h]; simp
    · rw [if_neg h]
      cases jsSplit sep rest <;> simp

theorem jsSplit_of_not_mem {sep : Char} : ∀ {s : Str}, sep ∉ s → jsSplit sep s = [s] := by
  intro s
  induction s with
  | nil => intro _; rfl
  | cons c rest ih =>
    intro h
    have hc : ¬c = sep := fun he => h (he ▸ List.mem_cons_self c rest)
    have hr : sep ∉ rest := fun hm => h (List.mem_cons_of_mem c hm)
    unfold jsSplit
    rw [if_neg hc, ih hr]

theorem jsSplit_append {sep : Char} : ∀ {a b : Str}, sep ∉ a →
    jsSplit sep (a ++ sep :: b) = a :: jsSplit sep b := by
  intro a
  induction a with
  | nil =>
    intro b _
    show jsSplit sep (sep :: b) = [] :: jsSplit sep b
    conv_lhs => rw [jsSplit]
    rw [if_pos rfl]
  | cons c a ih =>
    intro b h
    have hc : ¬c = sep := fun he => h (he ▸ List.mem_cons_self c a)
    have ha : sep ∉ a := fun hm => h (List.mem_cons_of_mem c hm)
    show jsSplit sep (c :: (a ++ sep :: b)) = (c :: a) :: jsSplit sep b
    conv_lhs => rw [jsSplit]
    rw [if_neg hc, ih ha]

theorem isDigit_ne_slash {c : Char} (h : c.isDigit = true) : c ≠ '/' := by
  intro he; subst he; exact absurd h (by decide)

theorem isDigit_ne_hyphen {c : Char} (h : c.isDigit = true) : c ≠ '-' := by
  intro he; subst he; exact absurd h (by decide)

theorem slash_not_mem_of_digits {s : Str} (h : ∀ c ∈ s, c.isDigit = true) : '/' ∉ s :=
  fun hm => absurd (h _ hm) (by decide)

theorem hyphen_not_mem_of_digits {s : Str} (h : ∀ c ∈ s, c.isDigit = true) : '-' ∉ s :=
  fun hm => absurd (h _ hm) (by decide)

theorem normalizeDate_slash (m d y : Str) (hm : ∀ c ∈ m, c.isDigit = true)
    (hd : ∀ c ∈ d, c.isDigit = true) (hy : ∀ c ∈ y, c.isDigit = true) :
    normalizeDateForStorageUTC (m ++ '/' :: (d ++ '/' :: y)) =
      y ++ '-' :: (padStart2 m ++ '-' :: padStart2 d) := by
  unfold normalizeDateForStorageUTC
  rw [if_pos (by simp)]
  rw [jsSplit_append (slash_not_mem_of_digits hm),
    jsSplit_append (slash_not_mem_of_digits hd),
    jsSplit_of_not_mem (slash_not_mem_of_digits hy)]
  simp only [List.getD_cons_zero, List.getD_cons_succ]
  simp

theorem normalizeDate_hyphen (y m d : Str) (hy : ∀ c ∈ y, c.isDigit = true)
    (hm : ∀ c ∈ m, c.isDigit = true) (hd : ∀ c ∈ d, c.isDigit = true) :
    normalizeDateForStorageUTC (y ++ '-' :: (m ++ '-' :: d)) =
      y ++ '-' :: (m ++ '-' :: d) := by
  unfold normalizeDateForStorageUTC
  rw [if_neg, if_pos (by simp)]
  · rw [jsSplit_append (hyphen_not_mem_of_digits hy),
      jsSplit_append (hyphen_not_mem_of_digits hm),
      jsSplit_of_not_mem (hyphen_not_mem_of_digits hd)]
    simp only [List.getD_cons_zero, List.getD_cons_succ]
    simp
  · simp only [List.mem_append, List.mem_cons, not_or]
    refine ⟨fun hc => absurd (hy _ hc) (by decide), by decide, ?_, by decide,
      fun hc => absurd (hd _ hc) (by decide)⟩
    exact fun hc => absurd (hm _ hc) (by decide)

theorem strStartsWith_subset : ∀ {hay needle : Str},
    strStartsWith hay needle = true → ∀ c ∈ needle, c ∈ hay := by
  intro hay needle
  induction needle generalizing hay with
  | nil => intro _ c hc; simp at hc
  | cons d ds ih =>
    intro h c hc
    cases hay with
    | nil => simp [strStartsWith] at h
    | cons a t =>
      have hstep : strStartsWith (a :: t) (d :: ds) = (decide (a = d) && strStartsWith t ds) := rfl
      rw [hstep, Bool.and_eq_true] at h
      rcases List.mem_cons.mp hc with hc | hc
      · subst hc
        have had : a = c := by
          have := h.1
          simp at this
          exact this
        rw [← had]
        exact List.mem_cons_self a t
      · exact List.mem_cons_of_mem a (ih h.2 c hc)

theorem jsIncludes_subset : ∀ {hay needle : Str},
    jsIncludes hay needle = true → ∀ c ∈ needle, c ∈ hay := by
  intro hay
  induction hay with
  | nil =>
    intro needle h c hc
    cases needle with
    | nil => simp at hc
    | cons d ds => simp [jsIncludes, strStartsWith] at h
  | cons a t ih =>
    intro needle h c hc
    unfold jsIncludes at h
    rw [Bool.or_eq_true] at h
    rcases h with h | h
    · exact strStartsWith_subset h c hc
    · exact List.mem_cons_of_mem a (ih h c hc)

theorem mem_natToStrGo : ∀ (fuel n : ℕ) (acc : Str) (c : Char), c ∈ natToStrGo fuel n acc →
    c ∈ acc ∨ ∃ m, m < 10 ∧ c = Char.ofNat ('0'.toNat + m) := by
  intro fuel
  induction fuel with
  | zero => intro n acc c hc; exact Or.inl hc
  | succ fuel ih =>
    intro n acc c hc
    unfold natToStrGo at hc
    by_cases hlt : n < 10
    · rw [if_pos hlt] at hc
      rcases List.mem_cons.mp hc with hc | hc
      · exact Or.inr ⟨n % 10, Nat.mod_lt _ (by omega), hc⟩
      · exact Or.inl hc
    · rw [if_neg hlt] at hc
      rcases ih (n / 10) _ c hc with h | h
      · rcases List.mem_cons.mp h with h | h
        · exact Or.inr ⟨n % 10, Nat.mod_lt _ (by omega), h⟩
        · exact Or.inl h
      · exact Or.inr h

theorem space_not_mem_unknownLabel_lower (i : ℕ) :
    ' ' ∉ (unknownLabel i).map Char.toLower := by
  intro hmem
  rcases List.mem_map.mp hmem with ⟨c, hc, hlow⟩
  unfold unknownLabel at hc
  rcases List.mem_append.mp hc with h | h
  · have h8 : c ∈ ['U', 'n', 'k', 'n', 'o', 'w', 'n', '_'] := h
    fin_cases h8 <;> exact absurd hlow (by decide)
  · rcases mem_natToStrGo (i + 1) i [] c h with h' | h'
    · simp at h'
    · obtain ⟨m, hm, hcm⟩ := h'
      subst hcm
      interval_cases m <;> exact absurd hlow (by decide)

theorem unknownLabel_not_storeid (i : ℕ) :
    jsIncludes ((unknownLabel i).map Char.toLower) (str "store id") = false := by
  by_contra h
  have h' : jsIncludes ((unknownLabel i).map Char.toLower) (str "store id") = true := by
    revert h; cases jsIncludes ((unknownLabel i).map Char.toLower) (str "store id") <;> simp
  have := jsIncludes_subset h' ' ' (by decide)
  exact space_not_mem_unknownLabel_lower i this

theorem unknownLabel_ne_nil (i : ℕ) : (unknownLabel i).isEmpty = false := by
  unfold unknownLabel str
  rfl

theorem storeLabelOf_empty {i : ℕ} {line : Str} (h : (parseCSVLine line).getD 0 [] = []) :
    storeLabelOf i line = unknownLabel i := by
  unfold storeLabelOf
  rw [List.getD_eq_getElem?_getD] at h
  rcases hg : (parseCSVLine line)[0]? with _ | v
  · rfl
  · rw [hg] at h
    have hv : v = [] := by simpa using h
    show (if v = [] then unknownLabel i else v) = unknownLabel i
    rw [if_pos hv]

theorem storeLabelOf_nonempty {i : ℕ} {line : Str} (h : (parseCSVLine line).getD 0 [] ≠ []) :
    storeLabelOf i line = (parseCSVLine line).getD 0 [] := by
  unfold storeLabelOf
  rw [List.getD_eq_getElem?_getD] at h ⊢
  rcases hg : (parseCSVLine line)[0]? with _ | v
  · rw [hg] at h; simp at h
  · rw [hg] at h
    have hv : v ≠ [] := by simpa using h
    show (if v = [] then unknownLabel i else v) = (some v).getD []
    rw [if_neg hv]
    rfl

theorem rowSkipped_of_empty_label {i : ℕ} {line : Str}
    (h : (parseCSVLine line).getD 0 [] = []) : rowSkipped i line = false := by
  unfold rowSkipped
  rw [storeLabelOf_empty h, unknownLabel_not_storeid, unknownLabel_ne_nil]
  rfl

/-- The end-to-end scenario input of the specification. -/
def e2eCSV : Str :=
  str "Full Scale Report: 6/26/2024 - 6/26/2024\n,Overall,\n,n,5,4,3,2,1\nQDOBA,100,20,30,25,15,10"

/-- One record of the end-to-end scenario output (they differ only in score,
percent and count). -/
def e2eRecord (sc : ℕ) (pc : ℚ) (cnt : ℤ) : TransformedRecord :=
  ⟨str "QDOBA", str "2024-06-26", str "Overall", str "Overall", sc, pc, cnt, 100⟩

/-- The full record list produced for the end-to-end scenario. -/
def e2eRecords : List TransformedRecord :=
  [e2eRecord 1 10 1000, e2eRecord 2 15 1500, e2eRecord 3 25 2500,
    e2eRecord 4 30 3000, e2eRecord 5 20 2000]

theorem cleanValue_100 : cleanValue (some (str "100")) = 100 := by
  simp +decide [cleanValue, jsParseFloat, str, jsTrimLeft, spanDigits, digitsToNat, digitVal,
    List.dropWhile, List.takeWhile]

theorem cleanValue_20 : cleanValue (some (str "20")) = 20 := by
  simp +decide [cleanValue, jsParseFloat, str, jsTrimLeft, spanDigits, digitsToNat, digitVal,
    List.dropWhile, List.takeWhile]

theorem cleanValue_30 : cleanValue (some (str "30")) = 30 := by
  simp +decide [cleanValue, jsParseFloat, str, jsTrimLeft, spanDigits, digitsToNat, digitVal,
    List.dropWhile, List.takeWhile]

theorem cleanValue_25 : cleanValue (some (str "25")) = 25 := by
  simp +decide [cleanValue, jsParseFloat, str, jsTrimLeft, spanDigits, digitsToNat, digitVal,
    List.dropWhile, List.takeWhile]

theorem cleanValue_15 : cleanValue (some (str "15")) = 15 := by
  simp +decide [cleanValue, jsParseFloat, str, jsTrimLeft, spanDigits, digitsToNat, digitVal,
    List.dropWhile, List.takeWhile]

theorem cleanValue_10 : cleanValue (some (str "10")) = 10 := by
  simp +decide [cleanValue, jsParseFloat, str, jsTrimLeft, spanDigits, digitsToNat, digitVal,
    List.dropWhile, List.takeWhile]

/-- Evaluation of the whole engine on the end-to-end scenario. -/
theorem e2e_eval : transformSMGCSV e2eCSV none = Except.ok e2eRecords := by
  rw [show transformSMGCSV e2eCSV none =
    Except.ok (([1, 2, 3, 4, 5] : List ℕ).map (recordForScore
      ⟨str "6/26/2024", str "6/26/2024", some (str "6/26/2024 - 6/26/2024")⟩
      (str "QDOBA")
      [str "QDOBA", str "100", str "20", str "30", str "25", str "15", str "10"]
      (mkMetric (str "Overall") 1)
      (cleanValue (some (str "100"))))) from by rfl]
  simp only [List.map, recordForScore, mkMetric, Metric.scoreIndex]
  norm_num [cleanValue_100, cleanValue_20, cleanValue_30, cleanValue_25, cleanValue_15,
    cleanValue_10, e2eRecords, e2eRecord, jsRound]
  decide

theorem mem_recordsForMetric_total {di : DateInfo} {loc : Str} {vs : List Str} {m : Metric}
    {r : TransformedRecord} (hr : r ∈ recordsForMetric di loc vs m) :
    r.total_responses = cleanValue vs[m.responseCountIndex]? ∧
      r.response_count = jsRound (r.total_responses * r.response_percent) := by
  unfold recordsForMetric at hr
  rcases List.mem_map.mp hr with ⟨sc, _, rfl⟩
  exact ⟨rfl, rfl⟩

/-- C1: on every successful transformation, every record satisfies
response_count = round(total_responses times response_percent) with the percent
cell used literally; for each retained row and metric the five records of the
group all carry total_responses equal to the cleaned cell at the metric's
response-count column; and in the end-to-end scenario of section 8 the score-5
record has total_responses 100, response_percent 20 and response_count 2000. -/
theorem smg_C1 :
    (∀ csv td out, transformSMGCSV csv td = Except.ok out →
      ∀ r ∈ out, r.response_count = jsRound (r.total_responses * r.response_percent)) ∧
    (∀ csv td out, transformSMGCSV csv td = Except.ok out →
      out = (retainedDataLines csv).flatMap (fun p =>
        (metricsOf csv).flatMap
          (recordsForMetric (theDateInfo csv td) (storeLabelOf p.1 p.2) (parseCSVLine p.2)))) ∧
    (∀ di loc vs m, (recordsForMetric di loc vs m).length = 5 ∧
      ∀ r ∈ recordsForMetric di loc vs m,
        r.total_responses = cleanValue vs[m.responseCountIndex]?) ∧
    (transformSMGCSV e2eCSV none = Except.ok e2eRecords ∧
      e2eRecords.map (fun r => (r.score, r.total_responses, r.response_percent, r.response_count)) =
        [(1, 100, 10, 1000), (2, 100, 15, 1500), (3, 100, 25, 2500),
          (4, 100, 30, 3000), (5, 100, 20, 2000)]) := by
  refine ⟨?_, ?_, ?_, e2e_eval, ?_⟩
  · intro csv td out h r hr
    rw [transform_ok_decomp h] at hr
    rcases List.mem_flatMap.mp hr with ⟨p, _, hr2⟩
    rcases List.mem_flatMap.mp hr2 with ⟨m, _, hr3⟩
    exact (mem_recordsForMetric_total hr3).2
  · intro csv td out h
    exact transform_ok_decomp h
  · intro di loc vs m
    exact ⟨recordsForMetric_length di loc vs m,
      fun r hr => (mem_recordsForMetric_total hr).1⟩
  · decide

/-- Closed instance of the C1 theorem at the end-to-end scenario. -/
theorem smg_C1_witness :
    (e2eRecord 5 20 2000).response_count =
      jsRound ((e2eRecord 5 20 2000).total_responses * (e2eRecord 5 20 2000).response_percent) :=
  smg_C1.1 e2eCSV none e2eRecords e2e_eval (e2eRecord 5 20 2000)
    (by simp [e2eRecords])

/-- C2: on every successful transformation, the number of emitted records is
the number of retained data rows times the number of discovered metrics
times five. -/
theorem smg_C2 (csv : Str) (td : Option Str) (out : List TransformedRecord)
    (h : transformSMGCSV csv td = Except.ok out) :
    out.length = (retainedDataLines csv).length * (metricsOf csv).length * 5 := by
  rw [transform_ok_decomp h, outer_flatMap_length, Nat.mul_assoc]

/-- Closed instance of the C2 theorem at the end-to-end scenario. -/
theorem smg_C2_witness :
    e2eRecords.length = (retainedDataLines e2eCSV).length * (metricsOf e2eCSV).length * 5 :=
  smg_C2 e2eCSV none e2eRecords e2e_eval

/-- C3 fails on the code: in the end-to-end scenario the five records of the
single row and metric come out with scores ascending 1,2,3,4,5, not in the
claimed descending order 5,4,3,2,1. -/
theorem smg_C3_counterexample :
    (transformSMGCSV e2eCSV none).toOption.map (List.map (fun r => r.score)) =
      some [1, 2, 3, 4, 5] ∧ ([1, 2, 3, 4, 5] : List ℕ) ≠ [5, 4, 3, 2, 1] :=
  ⟨by rw [e2e_eval]; rfl, by decide⟩

/-- C3 amended: the emitted sequence is ordered with data-row order outermost,
metric order (header column order) in the middle, and score order ascending
1,2,3,4,5 innermost within each row-and-metric group. -/
theorem smg_C3_amended :
    (∀ csv td out, transformSMGCSV csv td = Except.ok out →
      out = (retainedDataLines csv).flatMap (fun p =>
        (metricsOf csv).flatMap
          (recordsForMetric (theDateInfo csv td) (storeLabelOf p.1 p.2) (parseCSVLine p.2)))) ∧
    (∀ di loc vs m, (recordsForMetric di loc vs m).map (fun r => r.score) = [1, 2, 3, 4, 5]) := by
  refine ⟨fun csv td out h => transform_ok_decomp h, ?_⟩
  intro di loc vs m
  rfl

/-- Closed instance of the amended C3 theorem at the end-to-end scenario. -/
theorem smg_C3_witness :
    e2eRecords = (retainedDataLines e2eCSV).flatMap (fun p =>
      (metricsOf e2eCSV).flatMap
        (recordsForMetric (theDateInfo e2eCSV none) (storeLabelOf p.1 p.2) (parseCSVLine p.2))) :=
  smg_C3_amended.1 e2eCSV none e2eRecords e2e_eval

/-- C4: the header parser is exactly the column scan the claim describes
(columns 1 through the end of the first header row, carrying the most recent
non-empty category cell, recording a metric wherever the trimmed second-row
cell is the letter n while a category is active, with the five score columns
at the next five offsets in descending score order), and on the rows
",A,B" and ",n,5,4,3,2,1" it yields exactly one metric named "A" with
response count at column 1 and score-column offsets 5 at 2, 4 at 3, 3 at 4,
2 at 5, 1 at 6. -/
theorem smg_C4 :
    (∀ h1 h2, parseHeaders h1 h2 = parseHeadersSpec h1 h2) ∧
    parseHeaders (str ",A,B") (str ",n,5,4,3,2,1") =
      [⟨str "A", 1, 1, 2, 3, 4, 5, 6⟩] :=
  ⟨parseHeaders_eq_spec, by decide⟩

/-- C5: the transformation fails if and only if fewer than four non-blank
lines remain, or no date range can be extracted from the title line while no
fallback date was supplied (in JavaScript an absent and an empty fallback
string are equally falsy, so both count as not supplied); the error result
carries no records, so failure is all-or-nothing. -/
theorem smg_C5 (csv : Str) (td : Option Str) :
    (∃ e, transformSMGCSV csv td = Except.error e) ↔
      ((smgLines csv).length < 4 ∨
        (extractDate ((smgLines csv).getD 0 []) = none ∧ (td = none ∨ td = some []))) := by
  constructor
  · rintro ⟨e, he⟩
    simp only [transformSMGCSV] at he
    by_cases hlen : (smgLines csv).length < 4
    · exact Or.inl hlen
    · rw [if_neg hlen] at he
      rcases hdi : resolvedDateInfo csv td with _ | di
      · right
        unfold resolvedDateInfo at hdi
        rcases hext : extractDate ((smgLines csv).getD 0 []) with _ | d
        · rw [hext] at hdi
          refine ⟨rfl, ?_⟩
          rcases td with _ | t
          · exact Or.inl rfl
          · right
            by_cases ht : t = []
            · rw [ht]
            · exfalso
              simp [ht] at hdi
        · rw [hext] at hdi
          cases hdi
      · rw [hdi] at he
        cases he
  · intro h
    simp only [transformSMGCSV]
    rcases h with hlen | ⟨hext, htd⟩
    · rw [if_pos hlen]
      exact ⟨_, rfl⟩
    · by_cases hlen : (smgLines csv).length < 4
      · rw [if_pos hlen]
        exact ⟨_, rfl⟩
      · rw [if_neg hlen]
        have : resolvedDateInfo csv td = none := by
          unfold resolvedDateInfo
          rw [hext]
          rcases htd with rfl | rfl
          · rfl
          · rfl
        rw [this]
        exact ⟨_, rfl⟩

/-- Closed instance of the C5 theorem: a three-line input fails. -/
theorem smg_C5_witness :
    ∃ e, transformSMGCSV (str "a\nb\nc") none = Except.error e :=
  (smg_C5 (str "a\nb\nc") none).mpr (Or.inl (by decide))

theorem jsParseFloat_threeFive : jsParseFloat (str "3.5") = some (7 / 2) := by
  simp +decide [jsParseFloat, str, jsTrimLeft, spanDigits, digitsToNat, digitVal,
    List.dropWhile, List.takeWhile]
  norm_num

/-- C6: the value normalizer maps the mask token, the empty string and an
absent cell to 0, maps every string that fails to parse as a float to 0
(never an error, since the model is a total function), and returns the parsed
number for every string that parses; in particular abc gives 0 and 3.5 gives
the number three and a half. -/
theorem smg_C6 :
    cleanValue none = 0 ∧
    cleanValue (some (str "**")) = 0 ∧
    cleanValue (some (str "")) = 0 ∧
    cleanValue (some (str "abc")) = 0 ∧
    cleanValue (some (str "3.5")) = 7 / 2 ∧
    (∀ s, jsParseFloat s = none → cleanValue (some s) = 0) ∧
    (∀ s q, jsParseFloat s = some q → cleanValue (some s) = q) := by
  refine ⟨rfl, rfl, rfl, by decide, ?_, ?_, ?_⟩
  · rw [show cleanValue (some (str "3.5")) =
      (match jsParseFloat (str "3.5") with
        | none => (0 : ℚ)
        | some q => q) from rfl]
    rw [jsParseFloat_threeFive]
  · intro s h
    show (if s = ['*', '*'] ∨ s = [] then (0 : ℚ)
      else match jsParseFloat s with | none => 0 | some q => q) = 0
    by_cases hif : s = ['*', '*'] ∨ s = []
    · rw [if_pos hif]
    · rw [if_neg hif, h]
  · intro s q h
    show (if s = ['*', '*'] ∨ s = [] then (0 : ℚ)
      else match jsParseFloat s with | none => 0 | some q => q) = q
    by_cases hif : s = ['*', '*'] ∨ s = []
    · exfalso
      rcases hif with rfl | rfl
      · rw [show jsParseFloat ['*', '*'] = none from rfl] at h
        cases h
      · rw [show jsParseFloat [] = none from rfl] at h
        cases h
    · rw [if_neg hif, h]

/-- Closed instance of the C6 theorem at the input 3.5. -/
theorem smg_C6_witness : cleanValue (some (str "3.5")) = 7 / 2 :=
  smg_C6.2.2.2.2.2.2 (str "3.5") (7 / 2) jsParseFloat_threeFive

/-- C7: a slash date with one- or two-digit month and day and four-digit year
canonicalizes to the year, zero-padded month and zero-padded day joined by
hyphens, and a hyphen date built from digit fields passes through unchanged;
in particular 6/26/2024 gives 2024-06-26 and 2024-06-26 is returned as is. -/
theorem smg_C7 :
    (∀ m d y : Str, m ≠ [] → m.length ≤ 2 → d ≠ [] → d.length ≤ 2 → y.length = 4 →
      (∀ c ∈ m, c.isDigit = true) → (∀ c ∈ d, c.isDigit = true) →
      (∀ c ∈ y, c.isDigit = true) →
      normalizeDateForStorageUTC (m ++ '/' :: (d ++ '/' :: y)) =
        y ++ '-' :: (padStart2 m ++ '-' :: padStart2 d)) ∧
    (∀ y m d : Str, (∀ c ∈ y, c.isDigit = true) → (∀ c ∈ m, c.isDigit = true) →
      (∀ c ∈ d, c.isDigit = true) →
      normalizeDateForStorageUTC (y ++ '-' :: (m ++ '-' :: d)) = y ++ '-' :: (m ++ '-' :: d)) ∧
    normalizeDateForStorageUTC (str "6/26/2024") = str "2024-06-26" ∧
    normalizeDateForStorageUTC (str "2024-06-26") = str "2024-06-26" :=
  ⟨fun m d y _ _ _ _ _ hm hd hy => normalizeDate_slash m d y hm hd hy,
    fun y m d hy hm hd => normalizeDate_hyphen y m d hy hm hd,
    by decide, by decide⟩

/-- Closed instance of the C7 theorem at the two example dates. -/
theorem smg_C7_witness :
    normalizeDateForStorageUTC (str "6" ++ '/' :: (str "26" ++ '/' :: str "2024")) =
      str "2024" ++ '-' :: (padStart2 (str "6") ++ '-' :: padStart2 (str "26")) ∧
    normalizeDateForStorageUTC (str "2024" ++ '-' :: (str "06" ++ '-' :: str "26")) =
      str "2024" ++ '-' :: (str "06" ++ '-' :: str "26") :=
  ⟨smg_C7.1 (str "6") (str "26") (str "2024") (by decide) (by decide) (by decide) (by decide)
      (by decide) (by decide) (by decide) (by decide),
    smg_C7.2.1 (str "2024") (str "06") (str "26") (by decide) (by decide) (by decide)⟩

/-- A variant of the end-to-end scenario whose data row has an empty store
cell in column 0. -/
def emptyLabelCSV : Str :=
  str "Full Scale Report: 6/26/2024 - 6/26/2024\n,Overall,\n,n,5,4,3,2,1\n,100,20,30,25,15,10"

/-- C8 fails on the code: a data row with an empty column-0 label is not
skipped; the engine substitutes the placeholder label and still emits the
five records (here on data line 3, labelled with the placeholder for index 3). -/
theorem smg_C8_counterexample :
    (transformSMGCSV emptyLabelCSV none).toOption.map (List.map (fun r => r.store_location)) =
      some (List.replicate 5 (str "Unknown_3")) ∧
    (transformSMGCSV emptyLabelCSV none).toOption.map List.length = some 5 ∧ (5 : ℕ) ≠ 0 := by
  refine ⟨by decide, by decide, by decide⟩

/-- C8 amended: a data row is skipped exactly when its column-0 label
lower-cased contains the phrase store id; a row whose column-0 cell is empty
is not skipped — it receives the synthesized placeholder label for its line
index and contributes records like any other retained row. -/
theorem smg_C8_amended (i : ℕ) (line : Str) :
    (rowSkipped i line = true ↔
      jsIncludes (((parseCSVLine line).getD 0 []).map Char.toLower) (str "store id") = true) ∧
    ((parseCSVLine line).getD 0 [] = [] →
      rowSkipped i line = false ∧ storeLabelOf i line = unknownLabel i) := by
  constructor
  · by_cases h0 : (parseCSVLine line).getD 0 [] = []
    · rw [rowSkipped_of_empty_label h0, h0]
      constructor
      · intro h; cases h
      · intro h
        exact absurd h (by decide)
    · unfold rowSkipped
      rw [storeLabelOf_nonempty h0]
      have hne : ((parseCSVLine line).getD 0 []).isEmpty = false := by
        rcases hc : (parseCSVLine line).getD 0 [] with _ | ⟨a, t⟩
        · exact absurd hc h0
        · rfl
      rw [hne, Bool.or_false]
  · intro h0
    exact ⟨rowSkipped_of_empty_label h0, storeLabelOf_empty h0⟩

/-- Closed instance of the amended C8 theorem on a row with an empty label. -/
theorem smg_C8_witness :
    rowSkipped 3 (str ",100,20") = false ∧ storeLabelOf 3 (str ",100,20") = unknownLabel 3 :=
  (smg_C8_amended 3 (str ",100,20")).2 (by decide)

/-- A report whose header carries a dangling response-count marker: the metric
columns 2 through 6 lie past the width of every row. -/
def danglingCSV : Str :=
  str "Full Scale Report: 6/26/2024 - 6/26/2024\n,Overall\n,n\nQDOBA,100"

/-- C9: reading any cell at or past a row's width yields 0 through the value
normalizer (the model of the undefined JavaScript read), the engine cannot
fault on any input that passes the two format checks, and on the concrete
dangling-marker report it succeeds with all five score percentages read as 0. -/
theorem smg_C9 :
    (∀ (vs : List Str) (i : ℕ), vs.length ≤ i → cleanValue vs[i]? = 0) ∧
    (∀ csv td, ¬(smgLines csv).length < 4 → resolvedDateInfo csv td ≠ none →
      ∃ out, transformSMGCSV csv td = Except.ok out) ∧
    (transformSMGCSV danglingCSV none).toOption.map
      (List.map (fun r => r.response_percent)) = some [0, 0, 0, 0, 0] := by
  refine ⟨?_, ?_, by decide⟩
  · intro vs i h
    rw [List.getElem?_eq_none h]
    rfl
  · intro csv td hlen hdi
    simp only [transformSMGCSV]
    rw [if_neg hlen]
    rcases h : resolvedDateInfo csv td with _ | di
    · exact absurd h hdi
    · exact ⟨_, rfl⟩

/-- Closed instance of the C9 theorem: an out-of-range read on the empty row
list, and success of the engine on the dangling-marker report. -/
theorem smg_C9_witness :
    cleanValue (([] : List Str)[0]?) = 0 ∧
    ∃ out, transformSMGCSV danglingCSV none = Except.ok out :=
  ⟨smg_C9.1 [] 0 (by decide), smg_C9.2.1 danglingCSV none (by decide) (by decide)⟩

/-- C10: every record of a successful run carries the canonicalized start
date of the resolved date information; when extraction from the title line
succeeds the caller-supplied fallback has no influence at all; and the records
built for a row and metric depend on the date information only through its
start date, so the extracted end date never influences any record. -/
theorem smg_C10 :
    (∀ csv td out, transformSMGCSV csv td = Except.ok out →
      ∀ r ∈ out, r.date = normalizeDateForStorageUTC (theDateInfo csv td).startDate) ∧
    (∀ csv td₁ td₂ di, extractDate ((smgLines csv).getD 0 []) = some di →
      transformSMGCSV csv td₁ = transformSMGCSV csv td₂) ∧
    (∀ di di' loc vs m, di.startDate = di'.startDate →
      recordsForMetric di loc vs m = recordsForMetric di' loc vs m) := by
  refine ⟨?_, ?_, ?_⟩
  · intro csv td out h r hr
    rw [transform_ok_decomp h] at hr
    rcases List.mem_flatMap.mp hr with ⟨p, _, hr2⟩
    rcases List.mem_flatMap.mp hr2 with ⟨m, _, hr3⟩
    unfold recordsForMetric at hr3
    rcases List.mem_map.mp hr3 with ⟨sc, _, rfl⟩
    rfl
  · intro csv td₁ td₂ di hext
    have hres : ∀ td, resolvedDateInfo csv td = some di := by
      intro td
      unfold resolvedDateInfo
      rw [hext]
    simp only [transformSMGCSV]
    rw [hres td₁, hres td₂]
  · intro di di' loc vs m h
    unfold recordsForMetric recordForScore
    rw [h]

/-- Closed instance of the C10 theorem: the fallback date does not change the
result of the end-to-end scenario, whose title line has an extractable range. -/
theorem smg_C10_witness :
    transformSMGCSV e2eCSV none = transformSMGCSV e2eCSV (some (str "1999-01-01")) :=
  smg_C10.2.1 e2eCSV none (some (str "1999-01-01"))
    ⟨str "6/26/2024", str "6/26/2024", some (str "6/26/2024 - 6/26/2024")⟩ (by decide)
